import Mathlib

/-!
# Verification of the gmailAssistant subscription core

Shallow embedding of `src/gmail_unsuscribe_mcp/gmail_service.py`.

Modelling conventions:
* Python `str` is Lean `String` / `List Char`.  Python's `str.lower()` and
  `str.strip()` operate on full Unicode; the embedding models the ASCII
  fragment (`Char.toLower`, the six ASCII whitespace characters of `\s`),
  which is exact for every string the program manipulates in the claims.
* The Gmail API (`users().messages().list/get`) is an external capability;
  it is modelled as an abstract `Mailbox` value.
* The `while` loops page over the mailbox; they are modelled with an
  explicit fuel parameter bounding the number of page iterations (the
  Python loop has no such bound; every property proved holds for every
  fuel value).
-/

namespace GmailUnsub

/-! ## Python string primitives -/

/-- The ASCII characters matched by Python's regex `\s` and `str.strip()`. -/
def isSpace (c : Char) : Bool :=
  c = ' ' || c = '\t' || c = '\n' || c = '\r' || c = '\x0b' || c = '\x0c'

/-- Python `str.lower()` (ASCII fragment). -/
def pyLower (s : String) : String := ⟨s.data.map Char.toLower⟩

/-- `startsWithL hay pre` : does `hay` start with `pre`?  (Python `str.startswith`.) -/
def startsWithL : List Char → List Char → Bool
  | _, [] => true
  | [], _ :: _ => false
  | c :: cs, p :: ps => c == p && startsWithL cs ps

/-- `substrL hay sub` : does `sub` occur contiguously inside `hay`?
(Python's `sub in hay`.) -/
def substrL (hay sub : List Char) : Bool :=
  match hay with
  | [] => sub.isEmpty
  | _ :: rest => startsWithL hay sub || substrL rest sub

/-- Python `sub in hay` on strings. -/
def pyContains (hay sub : String) : Bool := substrL hay.data sub.data

/-- Python `s.startswith(p)` on strings. -/
def pyStartsWith (s p : String) : Bool := startsWithL s.data p.data

/-- Remove the longest suffix whose characters all satisfy `p`. -/
def dropLastWhile (p : Char → Bool) (l : List Char) : List Char :=
  (l.reverse.dropWhile p).reverse

/-- Python `str.strip()` on character lists (ASCII whitespace). -/
def pyStripL (l : List Char) : List Char :=
  dropLastWhile isSpace (l.dropWhile isSpace)

/-- Python `str.strip()`. -/
def pyStrip (s : String) : String := ⟨pyStripL s.data⟩

/-- Python `str.strip('"')`: removes every leading and every trailing
double-quote character. -/
def stripQuotes (s : String) : String :=
  ⟨dropLastWhile (fun c => c == '"') (s.data.dropWhile (fun c => c == '"'))⟩

/-! ## Message headers -/

/-- One entry of `payload["headers"]`: a `{name, value}` pair. -/
structure Header where
  name : String
  value : String
deriving DecidableEq, Repr

/-- `_get_header_value(headers, header_name)`: value of the first header
whose name matches case-insensitively, or `None`. -/
def _get_header_value (headers : List Header) (header_name : String) : Option String :=
  match headers with
  | [] => none
  | h :: rest =>
    if pyLower h.name = pyLower header_name then some h.value
    else _get_header_value rest header_name

/-! ## `_parse_unsubscribe_header`: the regex `<([^>]+)>` -/

/-- The left-to-right scan of `re.findall(r"<([^>]+)>", s)`.
`acc = none` : no `<` is pending; `acc = some buf` : a `<` was seen and
`buf` holds the (reversed) non-`>` characters captured so far, which the
greedy `[^>]+` extends until a `>` closes the match.  A `>` arriving on an
empty capture means the match at that `<` failed (`[^>]+` needs one
character) and the scan resumes after the `>`; running out of input
discards the pending capture (no closing `>` exists). -/
def findAnglesGo (acc : Option (List Char)) : List Char → List String
  | [] => []
  | c :: rest =>
    match acc with
    | none =>
      if c = '<' then findAnglesGo (some []) rest
      else findAnglesGo none rest
    | some buf =>
      if c = '>' then
        if buf.isEmpty then findAnglesGo none rest
        else String.mk buf.reverse :: findAnglesGo none rest
      else findAnglesGo (some (c :: buf)) rest

/-- `re.findall(r"<([^>]+)>", s)`: every leftmost non-overlapping match of
a non-empty run of non-`>` characters enclosed in angle brackets. -/
def findAngles (s : List Char) : List String :=
  findAnglesGo none s

/-- `match.startswith(("http://", "https://"))`. -/
def isHttpTok (m : String) : Bool :=
  pyStartsWith m "http://" || pyStartsWith m "https://"

/-- `match.startswith("mailto:")`. -/
def isMailtoTok (m : String) : Bool :=
  pyStartsWith m "mailto:"

/-- The classification loop of `_parse_unsubscribe_header`: each match is
appended to `links` if it starts with `http://` or `https://`, else to
`mailtos` if it starts with `mailto:`, else dropped.  (The Python loop
appends at the back in scan order; this recursion produces the same two
lists.) -/
def classifyAngles : List String → List String × List String
  | [] => ([], [])
  | m :: ms =>
    let (links, mailtos) := classifyAngles ms
    if isHttpTok m then (m :: links, mailtos)
    else if isMailtoTok m then (links, m :: mailtos)
    else (links, mailtos)

/-- `_parse_unsubscribe_header(header_value)` → `(links, mailtos)`. -/
def _parse_unsubscribe_header (header_value : String) : List String × List String :=
  classifyAngles (findAngles header_value.data)

/-! ## `_extract_sender_info`: the regex `^(.+?)\s*<(.+?)>$` -/

/-- The `from_header` initialisation-and-scan of `_extract_sender_info`:
value of the first header named `from` (case-insensitive), else `""`. -/
def firstFromValue (headers : List Header) : String :=
  match headers with
  | [] => ""
  | h :: rest =>
    if pyLower h.name = "from" then h.value else firstFromValue rest

/-- `$` in Python `re` also matches just before one trailing newline. -/
def normDollar (cs : List Char) : List Char :=
  if cs.getLast? = some '\n' then cs.dropLast else cs

/-- Given a candidate group-1 `g1` and the remaining input `rest`, decide
whether `^(.+?)\s*<(.+?)>$` matches with group 1 exactly `g1`:
`.` excludes newlines, the greedy `\s*` must be followed directly by `<`
(it cannot backtrack, `<` not being whitespace), and the lazy group 2 runs
to the final `>` forced by the `$` anchor. -/
def checkSplit (g1 rest : List Char) : Option (List Char × List Char) :=
  if g1.contains '\n' then none
  else
    match rest.dropWhile isSpace with
    | c :: tail =>
      if c == '<' && tail.getLast? == some '>' && !tail.dropLast.isEmpty
          && !tail.dropLast.contains '\n' then
        some (g1, tail.dropLast)
      else none
    | [] => none

/-- The lazy `(.+?)` search: group 1 grows one character at a time, and the
first length at which the rest of the pattern matches wins. -/
def matchAux : List Char → List Char → Option (List Char × List Char)
  | _, [] => none
  | g1, c :: rest =>
    match checkSplit (g1 ++ [c]) rest with
    | some r => some r
    | none => matchAux (g1 ++ [c]) rest

/-- `re.match(r"^(.+?)\s*<(.+?)>$", s)`, returning the two groups. -/
def pyMatchFrom (s : String) : Option (String × String) :=
  (matchAux [] (normDollar s.data)).map (fun p => (String.mk p.1, String.mk p.2))

/-- `_extract_sender_info(headers)` → `(name, email)`. -/
def _extract_sender_info (headers : List Header) : String × String :=
  let from_header := firstFromValue headers
  match pyMatchFrom from_header with
  | some (g1, g2) => (stripQuotes (pyStrip g1), pyStrip g2)
  | none => (pyStrip from_header, pyStrip from_header)

/-! ## Subscription records -/

/-- The `Subscription` dataclass. -/
structure Subscription where
  sender_email : String
  sender_name : String
  subject_examples : List String
  message_ids : List String
  unsubscribe_links : List String
  unsubscribe_mailto : List String
  email_count : Nat
deriving DecidableEq, Repr

/-- The Gmail capability consumed by the walkers (spec §6), specialised to
one query string: `listMessages batchSize pageToken` models
`users().messages().list(...)` returning message ids and an optional
continuation token; `getMetadata id` models `users().messages().get(...)`
returning `payload["headers"]`. -/
structure Mailbox where
  listMessages : Nat → Option String → List String × Option String
  getMetadata : String → List Header

/-- The mutable state of the `list_subscriptions` loop.  `subs` models the
Python dict (insertion-ordered, one binding per key); `examined` counts
metadata fetches and `requests` counts page-list calls (the two external
call counters, recorded for the theorems about budget and pagination). -/
structure ScanState where
  subs : List (String × Subscription)
  processed : Nat
  examined : Nat
  requests : Nat
deriving DecidableEq, Repr

/-- `key in subscriptions` on the dict model. -/
def containsKey (subs : List (String × Subscription)) (k : String) : Bool :=
  subs.any (fun p => p.1 == k)

/-- In-place update of the (unique) binding of `k` in the dict model. -/
def updateKey (k : String) (f : Subscription → Subscription) :
    List (String × Subscription) → List (String × Subscription)
  | [] => []
  | (k', s) :: rest =>
    if k' = k then (k', f s) :: rest else (k', s) :: updateKey k f rest

/-- The five mutations applied to `sub` for one contributing message. -/
def applyMessage (subject msgId : String) (http_links mailto_links : List String)
    (sub : Subscription) : Subscription :=
  { sub with
    subject_examples := sub.subject_examples ++ [subject]
    message_ids := sub.message_ids ++ [msgId]
    unsubscribe_links := sub.unsubscribe_links ++ http_links
    unsubscribe_mailto := sub.unsubscribe_mailto ++ mailto_links
    email_count := sub.email_count + 1 }

/-- The dict mutations of the retained branch of the loop body: derive
sender identity, subject and signal from the headers, key by the
lowercased address, create the record on first encounter (appended, so the
dict stays in first-encounter order), then apply the five appends. -/
def retainMessage (headers : List Header) (msgId v : String)
    (subs : List (String × Subscription)) : List (String × Subscription) :=
  let sender := _extract_sender_info headers
  let subject := (_get_header_value headers "Subject").getD ""
  let parsed := _parse_unsubscribe_header v
  let key := pyLower sender.2
  let subs0 :=
    if containsKey subs key then subs
    else subs ++ [(key, ⟨sender.2, sender.1, [], [], [], [], 0⟩)]
  updateKey key (applyMessage subject msgId parsed.1 parsed.2) subs0

/-- One iteration of the `for msg in messages` body of `list_subscriptions`.
The returned flag records whether `break` fired; the source checks
`processed >= max_results` only after a retained message, and
`if not list_unsub: continue` skips on an absent header or on the falsy
empty-string value. -/
def processOne (mb : Mailbox) (max_results : Nat) (msgId : String)
    (st : ScanState) : ScanState × Bool :=
  let headers := mb.getMetadata msgId
  let st := { st with examined := st.examined + 1 }
  match _get_header_value headers "List-Unsubscribe" with
  | none => (st, false)
  | some v =>
    if v = "" then (st, false)
    else
      let processed := st.processed + 1
      ({ st with subs := retainMessage headers msgId v st.subs, processed := processed },
       decide (max_results ≤ processed))

/-- The `for msg in messages` loop of `list_subscriptions`. -/
def processMessages (mb : Mailbox) (max_results : Nat) :
    List String → ScanState → ScanState
  | [], st => st
  | m :: ms, st =>
    let r := processOne mb max_results m st
    if r.2 then r.1 else processMessages mb max_results ms r.1

/-- The `while processed < max_results` page loop of `list_subscriptions`;
`fuel` bounds the number of page iterations.  A falsy continuation token
(`None` or `""`) ends the loop, as does an empty page. -/
def scanPages (mb : Mailbox) (max_results : Nat) :
    Nat → Option String → ScanState → ScanState
  | 0, _, st => st
  | fuel + 1, tok, st =>
    if st.processed < max_results then
      let batch_size := min 100 (max_results - st.processed)
      let page := mb.listMessages batch_size tok
      let st := { st with requests := st.requests + 1 }
      if page.1.isEmpty then st
      else
        let st' := processMessages mb max_results page.1 st
        match page.2 with
        | none => st'
        | some t => if t = "" then st' else scanPages mb max_results fuel (some t) st'
    else st

/-- State at entry of `list_subscriptions`. -/
def initState : ScanState := ⟨[], 0, 0, 0⟩

/-- Final loop state of `list_subscriptions(max_results)`. -/
def scanFinal (mb : Mailbox) (max_results fuel : Nat) : ScanState :=
  scanPages mb max_results fuel none initState

/-- Stable descending insertion: `x` goes in front of the first element
whose count does not exceed its own, so every element placed before `x`
has a strictly greater count and equal-count elements keep input order. -/
def insertByCount (x : Subscription) : List Subscription → List Subscription
  | [] => [x]
  | y :: ys =>
    if y.email_count ≤ x.email_count then x :: y :: ys
    else y :: insertByCount x ys

/-- `sorted(subscriptions.values(), key=lambda s: s.email_count,
reverse=True)`: Python's sort is stable, and with `reverse=True` equal
counts keep their input order; modelled as stable insertion sort. -/
def pySortDesc : List Subscription → List Subscription
  | [] => []
  | x :: xs => insertByCount x (pySortDesc xs)

/-- `list_subscriptions(max_results)` over mailbox `mb`. -/
def list_subscriptions (mb : Mailbox) (max_results fuel : Nat) : List Subscription :=
  pySortDesc ((scanFinal mb max_results fuel).subs.map Prod.snd)

/-! ## `search_emails` -/

/-- One entry of the `results` list built by `search_emails`. -/
structure SearchResult where
  id : String
  from_name : String
  from_email : String
  subject : String
  date : String
  has_unsubscribe : Bool
deriving DecidableEq, Repr

/-- Loop state of `search_emails` (same call counters as the scan). -/
structure SearchState where
  results : List SearchResult
  processed : Nat
  examined : Nat
  requests : Nat
deriving DecidableEq, Repr

/-- One iteration of the `for msg in messages` body of `search_emails`:
every examined message is appended and counted. -/
def searchOne (mb : Mailbox) (max_results : Nat) (msgId : String)
    (st : SearchState) : SearchState × Bool :=
  let headers := mb.getMetadata msgId
  let st := { st with examined := st.examined + 1 }
  let sender := _extract_sender_info headers
  let subject := (_get_header_value headers "Subject").getD ""
  let date := (_get_header_value headers "Date").getD ""
  let has_unsubscribe := (_get_header_value headers "List-Unsubscribe").isSome
  let processed := st.processed + 1
  ({ st with
      results := st.results ++ [⟨msgId, sender.1, sender.2, subject, date, has_unsubscribe⟩]
      processed := processed },
   decide (max_results ≤ processed))

/-- The `for msg in messages` loop of `search_emails`. -/
def searchMessages (mb : Mailbox) (max_results : Nat) :
    List String → SearchState → SearchState
  | [], st => st
  | m :: ms, st =>
    let r := searchOne mb max_results m st
    if r.2 then r.1 else searchMessages mb max_results ms r.1

/-- The `while processed < max_results` page loop of `search_emails`
(the query string is part of `mb`). -/
def searchPages (mb : Mailbox) (max_results : Nat) :
    Nat → Option String → SearchState → SearchState
  | 0, _, st => st
  | fuel + 1, tok, st =>
    if st.processed < max_results then
      let batch_size := min 100 (max_results - st.processed)
      let page := mb.listMessages batch_size tok
      let st := { st with requests := st.requests + 1 }
      if page.1.isEmpty then st
      else
        let st' := searchMessages mb max_results page.1 st
        match page.2 with
        | none => st'
        | some t => if t = "" then st' else searchPages mb max_results fuel (some t) st'
    else st

/-- `search_emails(query, max_results)` over mailbox `mb`. -/
def search_emails (mb : Mailbox) (max_results fuel : Nat) : List SearchResult :=
  (searchPages mb max_results fuel none ⟨[], 0, 0, 0⟩).results

/-! ## `unsubscribe_http`: the confirmation engine -/

/-- The failure modes caught by the engine's `except Exception` (every
exception raised inside the `try` block: transport, TLS, decoding, and
HTML parsing). -/
inductive TransportError where
  | timeout
  | connectionError
  | tlsError
  | decodeError
  | parseError
deriving DecidableEq, Repr

/-- Outcome of `client.get(url)` followed by HTML text extraction:
either the decoded body (`resp.text`) together with the visible text
produced by the HTML-extraction capability (`soup.get_text(separator=" ")`,
spec §6), or an exception. -/
inductive FetchOutcome where
  | success (body : String) (visibleText : String)
  | failure (err : TransportError)
deriving DecidableEq, Repr

/-- The fixed keyword list of `unsubscribe_http`. -/
def keywords : List String :=
  ["unsubscribed",
   "removed",
   "successfully unsubscribed",
   "you have been unsubscribed",
   "has been removed",
   "opted out"]

/-- `unsubscribe_http(url)` as a function of the fetch outcome for `url`:
on success the verdict is the keyword scan over the lowercased visible
text and the lowercased raw body; any exception yields `False`. -/
def unsubscribe_http : FetchOutcome → Bool
  | .success body visibleText =>
    let visible_text := pyLower visibleText
    let raw_text := pyLower body
    keywords.any (fun kw => pyContains visible_text kw || pyContains raw_text kw)
  | .failure _ => false

/-! ## Lemmas about the string primitives -/

theorem startsWithL_iff (hay pre : List Char) :
    startsWithL hay pre = true ↔ ∃ rest, hay = pre ++ rest := by
  induction pre generalizing hay with
  | nil => simp [startsWithL]
  | cons p ps ih =>
    cases hay with
    | nil => simp [startsWithL]
    | cons c cs =>
      simp only [startsWithL, Bool.and_eq_true, beq_iff_eq, ih, List.cons_append,
        List.cons.injEq]
      constructor
      · rintro ⟨rfl, rest, rfl⟩; exact ⟨rest, rfl, rfl⟩
      · rintro ⟨rest, rfl, rfl⟩; exact ⟨rfl, rest, rfl⟩

theorem substrL_iff (hay sub : List Char) :
    substrL hay sub = true ↔ ∃ pre post, hay = pre ++ sub ++ post := by
  induction hay with
  | nil =>
    simp only [substrL, List.isEmpty_iff]
    constructor
    · rintro rfl; exact ⟨[], [], rfl⟩
    · rintro ⟨pre, post, h⟩
      have hlen := congrArg List.length h
      simp at hlen
      exact List.eq_nil_of_length_eq_zero (by omega)
  | cons c cs ih =>
    simp only [substrL, Bool.or_eq_true, startsWithL_iff, ih]
    constructor
    · rintro (⟨rest, h⟩ | ⟨pre, post, h⟩)
      · exact ⟨[], rest, by simpa using h⟩
      · exact ⟨c :: pre, post, by simp [h]⟩
    · rintro ⟨pre, post, h⟩
      cases pre with
      | nil => exact Or.inl ⟨post, by simpa using h⟩
      | cons p ps =>
        simp only [List.cons_append, List.cons.injEq] at h
        exact Or.inr ⟨ps, post, h.2⟩

theorem substrL_trans {a b c : List Char} (h₁ : substrL b a = true)
    (h₂ : substrL c b = true) : substrL c a = true := by
  rw [substrL_iff] at h₁ h₂ ⊢
  obtain ⟨p₁, q₁, rfl⟩ := h₁
  obtain ⟨p₂, q₂, rfl⟩ := h₂
  exact ⟨p₂ ++ p₁, q₁ ++ q₂, by simp⟩

theorem substrL_map (f : Char → Char) {hay sub : List Char}
    (h : substrL hay sub = true) : substrL (hay.map f) (sub.map f) = true := by
  rw [substrL_iff] at h ⊢
  obtain ⟨pre, post, rfl⟩ := h
  exact ⟨pre.map f, post.map f, by simp⟩

theorem pyLower_data (s : String) : (pyLower s).data = s.data.map Char.toLower := rfl

/-- `pyContains` is antitone in the needle: a hit on a longer keyword is a
hit on any of its own substrings. -/
theorem pyContains_of_substr {t sub₁ sub₂ : String}
    (hsub : substrL sub₂.data sub₁.data = true)
    (h : pyContains t sub₂ = true) : pyContains t sub₁ = true :=
  substrL_trans hsub h

/-! ## Claim C2: the keyword verdict on successful responses -/

theorem unsubscribe_http_success_iff (body visibleText : String) :
    unsubscribe_http (.success body visibleText) = true ↔
      ∃ kw ∈ keywords, pyContains (pyLower visibleText) kw = true ∨
        pyContains (pyLower body) kw = true := by
  simp only [unsubscribe_http, List.any_eq_true, Bool.or_eq_true]

/-- Claim C2: for every successfully fetched and decoded response, the
verdict of `unsubscribe_http` is `true` iff one of the six keywords occurs
as a substring of the lowercased visible text or of the lowercased raw
body; in particular any casing variant of "You have been unsubscribed"
occurring in the body forces `true` (so a success with no keyword
occurrence yields `false`). -/
theorem C2_keyword_verdict :
    (∀ body visibleText : String,
      unsubscribe_http (.success body visibleText) = true ↔
        ∃ kw ∈ keywords, pyContains (pyLower visibleText) kw = true ∨
          pyContains (pyLower body) kw = true) ∧
    (∀ body visibleText v : String,
      v.data.map Char.toLower = "you have been unsubscribed".data →
      substrL body.data v.data = true →
      unsubscribe_http (.success body visibleText) = true) := by
  refine ⟨unsubscribe_http_success_iff, ?_⟩
  intro body visibleText v hcase hsub
  rw [unsubscribe_http_success_iff]
  refine ⟨"you have been unsubscribed", by simp [keywords], Or.inr ?_⟩
  have := substrL_map Char.toLower hsub
  rw [hcase] at this
  simpa [pyContains, pyLower_data] using this

/-- Witness for C2 at a concrete mixed-casing body. -/
theorem C2_keyword_verdict_witness :
    unsubscribe_http (.success "Done. You HAVE Been UnsubscribeD." "irrelevant") = true :=
  C2_keyword_verdict.2 "Done. You HAVE Been UnsubscribeD." "irrelevant"
    "You HAVE Been UnsubscribeD" (by decide) (by decide)

/-! ## Claim C3: failures collapse to `false` -/

/-- Claim C3: for every transport-level failure of the confirmation fetch
(timeout, connection error, TLS error, non-decodable response, or
HTML-parse failure) the engine returns `false`; `unsubscribe_http` is a
total function of the outcome, so no exception escapes the boundary. -/
theorem C3_failure_false :
    ∀ e : TransportError, unsubscribe_http (.failure e) = false :=
  fun _ => rfl

/-! ## Claim C10: the three multi-word keywords are redundant -/

/-- The reduced keyword set of claim C10, written from the claim's words:
each dropped keyword contains one of these as a substring. -/
def shortKeywords : List String := ["unsubscribed", "removed", "opted out"]

/-- The verdict computed over the reduced keyword set. -/
def unsubscribe_http_short : FetchOutcome → Bool
  | .success body visibleText =>
    let visible_text := pyLower visibleText
    let raw_text := pyLower body
    shortKeywords.any (fun kw => pyContains visible_text kw || pyContains raw_text kw)
  | .failure _ => false

/-- Claim C10: on every fetch outcome the six-keyword verdict equals the
three-keyword verdict over "unsubscribed", "removed", "opted out": the
three multi-word keywords each contain one of the short ones as a
substring and therefore never change the verdict. -/
theorem C10_short_keywords_equiv :
    ∀ o : FetchOutcome, unsubscribe_http o = unsubscribe_http_short o := by
  intro o
  cases o with
  | failure e => rfl
  | success body visibleText =>
    apply Bool.eq_iff_iff.mpr
    simp only [unsubscribe_http, unsubscribe_http_short, keywords, shortKeywords,
      List.any_cons, List.any_nil, Bool.or_eq_true, Bool.or_false]
    constructor
    · rintro (h | h | h | h | h | h)
      · exact Or.inl h
      · exact Or.inr (Or.inl h)
      · exact Or.inl (h.imp (pyContains_of_substr (by decide)) (pyContains_of_substr (by decide)))
      · exact Or.inl (h.imp (pyContains_of_substr (by decide)) (pyContains_of_substr (by decide)))
      · exact Or.inr (Or.inl (h.imp (pyContains_of_substr (by decide)) (pyContains_of_substr (by decide))))
      · exact Or.inr (Or.inr h)
    · rintro (h | h | h)
      · exact Or.inl h
      · exact Or.inr (Or.inl h)
      · exact Or.inr (Or.inr (Or.inr (Or.inr (Or.inr h))))

/-! ## Claim C6: classification of `List-Unsubscribe` tokens -/

theorem startsWithL_head? {hay pre : List Char} {c : Char}
    (h : startsWithL hay (c :: pre) = true) : hay.head? = some c := by
  cases hay with
  | nil => simp [startsWithL] at h
  | cons a t =>
    simp only [startsWithL, Bool.and_eq_true, beq_iff_eq] at h
    simp [h.1]

theorem head?_of_isHttpTok {m : String} (h : isHttpTok m = true) :
    m.data.head? = some 'h' := by
  rw [isHttpTok, Bool.or_eq_true] at h
  rcases h with h | h
  · exact startsWithL_head? (show startsWithL m.data ('h' :: "ttp://".data) = true from h)
  · exact startsWithL_head? (show startsWithL m.data ('h' :: "ttps://".data) = true from h)

/-- A token can satisfy at most one of the two scheme tests: `http(s)://`
targets start with `h`, `mailto:` targets with `m`. -/
theorem isMailtoTok_eq_false_of_http {m : String} (h : isHttpTok m = true) :
    isMailtoTok m = false := by
  apply Bool.eq_false_iff.mpr
  intro hm
  have h1 := head?_of_isHttpTok h
  have h2 : m.data.head? = some 'm' :=
    startsWithL_head? (show startsWithL m.data ('m' :: "ailto:".data) = true from hm)
  rw [h1] at h2
  exact absurd h2 (by decide)

/-- The classification loop returns exactly the two scheme filters of the
match list, in match order. -/
theorem classifyAngles_eq_filter (ms : List String) :
    classifyAngles ms = (ms.filter isHttpTok, ms.filter isMailtoTok) := by
  induction ms with
  | nil => rfl
  | cons m ms ih =>
    by_cases h1 : isHttpTok m = true
    · have h2 := isMailtoTok_eq_false_of_http h1
      simp [classifyAngles, ih, List.filter_cons, h1, h2]
    · by_cases h2 : isMailtoTok m = true
      · simp [classifyAngles, ih, List.filter_cons, h1, h2]
      · simp [classifyAngles, ih, List.filter_cons, h1, h2]

theorem filter_schemes_length_le (ms : List String) :
    (ms.filter isHttpTok).length + (ms.filter isMailtoTok).length ≤ ms.length := by
  induction ms with
  | nil => simp
  | cons m ms ih =>
    rw [List.filter_cons, List.filter_cons]
    by_cases h1 : isHttpTok m = true
    · have h2 := isMailtoTok_eq_false_of_http h1
      simp only [h1, if_true, h2, Bool.false_eq_true, if_false, List.length_cons]
      omega
    · have h1' : isHttpTok m = false := by simpa using h1
      by_cases h2 : isMailtoTok m = true
      · simp only [h1', Bool.false_eq_true, if_false, h2, if_true, List.length_cons]
        omega
      · have h2' : isMailtoTok m = false := by simpa using h2
        simp only [h1', h2', Bool.false_eq_true, if_false, List.length_cons]
        omega

/-- Claim C6: `_parse_unsubscribe_header` classifies the angle-bracket
tokens of the header value by scheme: the first component is exactly the
sublist (in order of appearance) of tokens starting with `http://` or
`https://`, the second exactly the sublist of tokens starting with
`mailto:`; every other token is dropped, so for a value with `k` tokens
the two output lengths sum to at most `k`. -/
theorem C6_parse_header_classification :
    ∀ header_value : String,
      (_parse_unsubscribe_header header_value).1 =
        (findAngles header_value.data).filter isHttpTok ∧
      (_parse_unsubscribe_header header_value).2 =
        (findAngles header_value.data).filter isMailtoTok ∧
      (_parse_unsubscribe_header header_value).1.length +
          (_parse_unsubscribe_header header_value).2.length ≤
        (findAngles header_value.data).length := by
  intro v
  have h := classifyAngles_eq_filter (findAngles v.data)
  have h1 : (_parse_unsubscribe_header v).1 = (findAngles v.data).filter isHttpTok := by
    rw [_parse_unsubscribe_header, h]
  have h2 : (_parse_unsubscribe_header v).2 = (findAngles v.data).filter isMailtoTok := by
    rw [_parse_unsubscribe_header, h]
  refine ⟨h1, h2, ?_⟩
  rw [h1, h2]
  exact filter_schemes_length_le _

/-! ## Claim C7: stable descending sort -/

theorem mem_insertByCount {a x : Subscription} {l : List Subscription} :
    a ∈ insertByCount x l ↔ a = x ∨ a ∈ l := by
  induction l with
  | nil => simp [insertByCount]
  | cons y ys ih =>
    rw [insertByCount]
    by_cases h : y.email_count ≤ x.email_count
    · simp [h]
    · simp only [h, if_false, List.mem_cons, ih]
      tauto

theorem pairwise_insertByCount {x : Subscription} {l : List Subscription}
    (hl : l.Pairwise (fun a b => b.email_count ≤ a.email_count)) :
    (insertByCount x l).Pairwise (fun a b => b.email_count ≤ a.email_count) := by
  induction l with
  | nil => simp [insertByCount]
  | cons y ys ih =>
    rw [List.pairwise_cons] at hl
    rw [insertByCount]
    by_cases h : y.email_count ≤ x.email_count
    · rw [if_pos h]
      refine List.Pairwise.cons ?_ (List.Pairwise.cons hl.1 hl.2)
      intro b hb
      rcases List.mem_cons.mp hb with rfl | hb
      · exact h
      · exact le_trans (hl.1 b hb) h
    · rw [if_neg h]
      refine List.Pairwise.cons ?_ (ih hl.2)
      intro b hb
      rcases mem_insertByCount.mp hb with rfl | hb
      · omega
      · exact hl.1 b hb

theorem pairwise_pySortDesc (l : List Subscription) :
    (pySortDesc l).Pairwise (fun a b => b.email_count ≤ a.email_count) := by
  induction l with
  | nil => exact List.Pairwise.nil
  | cons x xs ih => exact pairwise_insertByCount ih

theorem mem_pySortDesc {a : Subscription} {l : List Subscription} :
    a ∈ pySortDesc l ↔ a ∈ l := by
  induction l with
  | nil => simp [pySortDesc]
  | cons x xs ih =>
    rw [pySortDesc, mem_insertByCount]
    simp [ih]

/-- Key stability step: inserting `x` commutes with taking the sublist of
any fixed count, because every element `x` is placed after has a strictly
greater count. -/
theorem filter_insertByCount (c : Nat) (x : Subscription) (l : List Subscription) :
    (insertByCount x l).filter (fun s => s.email_count == c) =
      (x :: l).filter (fun s => s.email_count == c) := by
  induction l with
  | nil => rfl
  | cons y ys ih =>
    rw [insertByCount]
    by_cases h : y.email_count ≤ x.email_count
    · rw [if_pos h]
    · rw [if_neg h, List.filter_cons, ih]
      by_cases hy : y.email_count = c
      · have hx : (x.email_count == c) = false := by
          simp only [beq_eq_false_iff_ne, ne_eq]
          omega
        simp only [hy, beq_self_eq_true, if_true, List.filter_cons, hx,
          Bool.false_eq_true, if_false]
      · have hy' : (y.email_count == c) = false := by
          simp only [beq_eq_false_iff_ne, ne_eq]
          omega
        simp only [hy', Bool.false_eq_true, if_false, List.filter_cons]

theorem filter_pySortDesc (c : Nat) (l : List Subscription) :
    (pySortDesc l).filter (fun s => s.email_count == c) =
      l.filter (fun s => s.email_count == c) := by
  induction l with
  | nil => rfl
  | cons x xs ih =>
    rw [pySortDesc, filter_insertByCount, List.filter_cons, List.filter_cons, ih]

/-- Claim C7: the sequence returned by `list_subscriptions` is sorted
non-increasingly by `email_count`, and the sort is stable: for every count
value, the sublist of records with that count equals the corresponding
sublist of the pre-sort dict-value sequence — and the dict appends each
sender on first encounter, so that sequence is first-encounter order. -/
theorem C7_sorted_stable :
    ∀ (mb : Mailbox) (max_results fuel : Nat),
      (list_subscriptions mb max_results fuel).Pairwise
        (fun a b => b.email_count ≤ a.email_count) ∧
      ∀ c : Nat,
        (list_subscriptions mb max_results fuel).filter (fun s => s.email_count == c) =
          ((scanFinal mb max_results fuel).subs.map Prod.snd).filter
            (fun s => s.email_count == c) := by
  intro mb max_results fuel
  exact ⟨pairwise_pySortDesc _, fun c => filter_pySortDesc c _⟩

/-! ## Lemmas about the scan state -/

/-- Total number of message contributions recorded in the dict. -/
def sumCounts (subs : List (String × Subscription)) : Nat :=
  (subs.map (fun p => p.2.email_count)).sum

theorem sumCounts_append (l₁ l₂ : List (String × Subscription)) :
    sumCounts (l₁ ++ l₂) = sumCounts l₁ + sumCounts l₂ := by
  simp [sumCounts]

theorem containsKey_append_self (l : List (String × Subscription)) (k : String)
    (sub : Subscription) : containsKey (l ++ [(k, sub)]) k = true := by
  simp [containsKey]

theorem sumCounts_updateKey {l : List (String × Subscription)} {k : String}
    {f : Subscription → Subscription}
    (hf : ∀ s, (f s).email_count = s.email_count + 1)
    (hk : containsKey l k = true) :
    sumCounts (updateKey k f l) = sumCounts l + 1 := by
  induction l with
  | nil => simp [containsKey] at hk
  | cons p rest ih =>
    obtain ⟨k', s⟩ := p
    rw [updateKey]
    by_cases h : k' = k
    · rw [if_pos h]
      simp [sumCounts, hf]
      omega
    · rw [if_neg h]
      have hk' : containsKey rest k = true := by
        simpa [containsKey, h] using hk
      have := ih hk'
      simp only [sumCounts, List.map_cons, List.sum_cons] at this ⊢
      omega

theorem sumCounts_retainMessage (headers : List Header) (msgId v : String)
    (subs : List (String × Subscription)) :
    sumCounts (retainMessage headers msgId v subs) = sumCounts subs + 1 := by
  unfold retainMessage
  dsimp only
  by_cases h : containsKey subs (pyLower (_extract_sender_info headers).2) = true
  · rw [if_pos h, sumCounts_updateKey (fun s => rfl) h]
  · rw [if_neg h, sumCounts_updateKey (fun s => rfl) (containsKey_append_self _ _ _),
      sumCounts_append]
    simp [sumCounts]

/-- The per-record invariant of claim C4, as a predicate on the dict. -/
def CountsOk (subs : List (String × Subscription)) : Prop :=
  ∀ p ∈ subs, p.2.email_count = p.2.message_ids.length

theorem countsOk_updateKey {l : List (String × Subscription)} {k : String}
    {f : Subscription → Subscription}
    (hf : ∀ s, s.email_count = s.message_ids.length →
      (f s).email_count = (f s).message_ids.length)
    (h : CountsOk l) : CountsOk (updateKey k f l) := by
  induction l with
  | nil => simpa [updateKey] using h
  | cons p rest ih =>
    obtain ⟨k', s⟩ := p
    rw [updateKey]
    by_cases hk : k' = k
    · rw [if_pos hk]
      intro q hq
      rcases List.mem_cons.mp hq with rfl | hq
      · exact hf s (h (k', s) (List.mem_cons_self _ _))
      · exact h q (List.mem_cons_of_mem _ hq)
    · rw [if_neg hk]
      intro q hq
      rcases List.mem_cons.mp hq with rfl | hq
      · exact h (k', s) (List.mem_cons_self _ _)
      · exact ih (fun r hr => h r (List.mem_cons_of_mem _ hr)) q hq

theorem countsOk_retainMessage (headers : List Header) (msgId v : String)
    {subs : List (String × Subscription)} (h : CountsOk subs) :
    CountsOk (retainMessage headers msgId v subs) := by
  have happly : ∀ s : Subscription, s.email_count = s.message_ids.length →
      (applyMessage ((_get_header_value headers "Subject").getD "") msgId
        (_parse_unsubscribe_header v).1 (_parse_unsubscribe_header v).2 s).email_count =
      (applyMessage ((_get_header_value headers "Subject").getD "") msgId
        (_parse_unsubscribe_header v).1 (_parse_unsubscribe_header v).2 s).message_ids.length := by
    intro s hs
    simp [applyMessage, hs]
  unfold retainMessage
  dsimp only
  by_cases hc : containsKey subs (pyLower (_extract_sender_info headers).2) = true
  · rw [if_pos hc]
    exact countsOk_updateKey happly h
  · rw [if_neg hc]
    refine countsOk_updateKey happly ?_
    intro q hq
    rcases List.mem_append.mp hq with hq | hq
    · exact h q hq
    · rcases List.mem_singleton.mp hq with rfl
      rfl

theorem processOne_of_absent {mb : Mailbox} {max_results : Nat} {m : String}
    (st : ScanState)
    (h : _get_header_value (mb.getMetadata m) "List-Unsubscribe" = none) :
    processOne mb max_results m st = ({ st with examined := st.examined + 1 }, false) := by
  unfold processOne
  dsimp only
  rw [h]

theorem processOne_of_empty {mb : Mailbox} {max_results : Nat} {m : String}
    (st : ScanState)
    (h : _get_header_value (mb.getMetadata m) "List-Unsubscribe" = some "") :
    processOne mb max_results m st = ({ st with examined := st.examined + 1 }, false) := by
  unfold processOne
  dsimp only
  rw [h]
  simp

theorem processOne_of_retained {mb : Mailbox} {max_results : Nat} {m : String} {v : String}
    (st : ScanState)
    (h : _get_header_value (mb.getMetadata m) "List-Unsubscribe" = some v)
    (hne : v ≠ "") :
    processOne mb max_results m st =
      ({ st with
          subs := retainMessage (mb.getMetadata m) m v st.subs
          processed := st.processed + 1
          examined := st.examined + 1 },
       decide (max_results ≤ st.processed + 1)) := by
  unfold processOne
  dsimp only
  rw [h]
  simp only [hne, if_false]

/-- Case split driver: every property preserved by the three `processOne`
outcomes is preserved by `processOne`. -/
theorem processOne_cases {mb : Mailbox} {max_results : Nat} {m : String}
    (st : ScanState) (P : ScanState × Bool → Prop)
    (hskip : P ({ st with examined := st.examined + 1 }, false))
    (hret : ∀ v, _get_header_value (mb.getMetadata m) "List-Unsubscribe" = some v → v ≠ "" →
      P (({ st with
              subs := retainMessage (mb.getMetadata m) m v st.subs
              processed := st.processed + 1
              examined := st.examined + 1 },
          decide (max_results ≤ st.processed + 1)))) :
    P (processOne mb max_results m st) := by
  cases h : _get_header_value (mb.getMetadata m) "List-Unsubscribe" with
  | none => rw [processOne_of_absent st h]; exact hskip
  | some v =>
    by_cases hne : v = ""
    · subst hne
      rw [processOne_of_empty st h]
      exact hskip
    · rw [processOne_of_retained st h hne]
      exact hret v h hne

/-- Properties preserved by every loop-body iteration are preserved by the
message loop. -/
theorem processMessages_preserve {mb : Mailbox} {max_results : Nat}
    (P : ScanState → Prop)
    (hP : ∀ m st, P st → P (processOne mb max_results m st).1) :
    ∀ (ms : List String) (st : ScanState), P st →
      P (processMessages mb max_results ms st)
  | [], _, h => h
  | m :: ms, st, h => by
    rw [processMessages]
    by_cases hb : (processOne mb max_results m st).2 = true
    · rw [if_pos hb]
      exact hP m st h
    · rw [if_neg hb]
      exact processMessages_preserve P hP ms _ (hP m st h)

/-- Properties preserved by the loop body and insensitive to the request
counter are preserved by the page loop. -/
theorem scanPages_preserve {mb : Mailbox} {max_results : Nat}
    (P : ScanState → Prop)
    (hP : ∀ m st, P st → P (processOne mb max_results m st).1)
    (hreq : ∀ st, P st → P { st with requests := st.requests + 1 }) :
    ∀ (fuel : Nat) (tok : Option String) (st : ScanState), P st →
      P (scanPages mb max_results fuel tok st)
  | 0, _, _, h => h
  | fuel + 1, tok, st, h => by
    rw [scanPages]
    dsimp only
    by_cases h1 : st.processed < max_results
    · rw [if_pos h1]
      by_cases h2 : (mb.listMessages (min 100 (max_results - st.processed)) tok).1.isEmpty = true
      · rw [if_pos h2]
        exact hreq st h
      · rw [if_neg h2]
        have h3 : P (processMessages mb max_results
            (mb.listMessages (min 100 (max_results - st.processed)) tok).1
            { st with requests := st.requests + 1 }) :=
          processMessages_preserve P hP _ _ (hreq st h)
        cases hnt : (mb.listMessages (min 100 (max_results - st.processed)) tok).2 with
        | none => exact h3
        | some t =>
          dsimp only
          by_cases ht : t = ""
          · rw [if_pos ht]
            exact h3
          · rw [if_neg ht]
            exact scanPages_preserve P hP hreq fuel (some t) _ h3
    · rw [if_neg h1]
      exact h

/-! ## Claim C4: `email_count` equals the number of message ids -/

theorem countsOk_processOne (mb : Mailbox) (max_results : Nat) (m : String)
    (st : ScanState) (h : CountsOk st.subs) :
    CountsOk (processOne mb max_results m st).1.subs := by
  apply processOne_cases st (fun r => CountsOk r.1.subs)
  · exact h
  · intro v _ _
    exact countsOk_retainMessage _ _ _ h

theorem countsOk_scanFinal (mb : Mailbox) (max_results fuel : Nat) :
    CountsOk (scanFinal mb max_results fuel).subs :=
  scanPages_preserve (fun st => CountsOk st.subs)
    (fun m st h => countsOk_processOne mb max_results m st h)
    (fun _ h => h) fuel none initState
    (fun p hp => absurd hp (List.not_mem_nil p))

/-- Claim C4: every Subscription in the sequence returned by
`list_subscriptions`, after any scan, has `email_count` equal to the
length of its `message_ids` sequence. -/
theorem C4_email_count_eq_message_ids_length :
    ∀ (mb : Mailbox) (max_results fuel : Nat) (s : Subscription),
      s ∈ list_subscriptions mb max_results fuel →
      s.email_count = s.message_ids.length := by
  intro mb max_results fuel s hs
  rw [list_subscriptions, mem_pySortDesc] at hs
  obtain ⟨p, hp, rfl⟩ := List.mem_map.mp hs
  exact countsOk_scanFinal mb max_results fuel p hp

/-! ## Fixture mailboxes for the concrete evaluations -/

/-- Fixture: one page with two messages; the first lacks `List-Unsubscribe`,
the second carries one. -/
def mbSkipFirst : Mailbox where
  listMessages := fun _ tok =>
    match tok with
    | none => (["m1", "m2"], none)
    | some _ => ([], none)
  getMetadata := fun id =>
    if id = "m1" then [⟨"From", "A <a@x.com>"⟩, ⟨"Subject", "s1"⟩]
    else [⟨"From", "B <b@x.com>"⟩, ⟨"Subject", "s2"⟩, ⟨"List-Unsubscribe", "<https://x/u>"⟩]

/-- Fixture: one page with a single message lacking `List-Unsubscribe`. -/
def mbAllSkipped : Mailbox where
  listMessages := fun _ tok =>
    match tok with
    | none => (["m1"], none)
    | some _ => ([], none)
  getMetadata := fun _ => [⟨"From", "A <a@x.com>"⟩, ⟨"Subject", "s1"⟩]

/-- Fixture: a single message whose `List-Unsubscribe` header is present
with the empty string as value. -/
def mbEmptyHeader : Mailbox where
  listMessages := fun _ tok =>
    match tok with
    | none => (["m1"], none)
    | some _ => ([], none)
  getMetadata := fun _ =>
    [⟨"From", "A <a@x.com>"⟩, ⟨"Subject", "s1"⟩, ⟨"List-Unsubscribe", ""⟩]

/-- Fixture: the listing capability always returns an empty page. -/
def mbEmptyPage : Mailbox where
  listMessages := fun _ _ => ([], none)
  getMetadata := fun _ => []

/-- Witness for C4 on a concrete scan. -/
theorem C4_email_count_eq_message_ids_length_witness :
    (⟨"b@x.com", "B", ["s2"], ["m2"], ["https://x/u"], [], 1⟩ : Subscription).email_count =
      (⟨"b@x.com", "B", ["s2"], ["m2"], ["https://x/u"], [], 1⟩ : Subscription).message_ids.length :=
  C4_email_count_eq_message_ids_length mbSkipFirst 10 5 _ (by decide)

/-! ## Claim C1: what the `max_results` budget counts -/

/-- Claim C1 counterexample: the claim says a message skipped for lacking
`List-Unsubscribe` still increments the processed count, so that the
budget counts messages examined.  In the code the `continue` fires before
`processed += 1`: on a mailbox whose only message lacks the header, one
message is examined yet `processed` stays `0`; and with `max_results = 1`
on a two-message page whose first message lacks the header, the claim
predicts the budget is exhausted before the second message, while the code
examines and retains the second message. -/
theorem C1_counterexample :
    (scanFinal mbAllSkipped 5 3).examined = 1 ∧
    (scanFinal mbAllSkipped 5 3).processed = 0 ∧
    (scanFinal mbSkipFirst 1 3).examined = 2 ∧
    (list_subscriptions mbSkipFirst 1 3).map Subscription.sender_email = ["b@x.com"] := by
  decide

theorem budget_processOne (mb : Mailbox) (max_results : Nat) (m : String)
    (st : ScanState) (h : st.processed = sumCounts st.subs) :
    (processOne mb max_results m st).1.processed =
      sumCounts (processOne mb max_results m st).1.subs := by
  apply processOne_cases st (fun r => r.1.processed = sumCounts r.1.subs)
  · exact h
  · intro v _ _
    dsimp only
    rw [sumCounts_retainMessage, h]

/-- Claim C1 amended: the `max_results` budget counts messages retained,
not messages examined: the final processed count equals the total number
of recorded contributions (the sum of all `email_count`s), and a message
whose `List-Unsubscribe` header is absent leaves the state unchanged apart
from the metadata-fetch counter and never triggers the early exit. -/
theorem C1_amended_budget_counts_retained :
    (∀ (mb : Mailbox) (max_results fuel : Nat),
      (scanFinal mb max_results fuel).processed =
        sumCounts (scanFinal mb max_results fuel).subs) ∧
    (∀ (mb : Mailbox) (max_results : Nat) (m : String) (st : ScanState),
      _get_header_value (mb.getMetadata m) "List-Unsubscribe" = none →
      processOne mb max_results m st = ({ st with examined := st.examined + 1 }, false)) := by
  constructor
  · intro mb max_results fuel
    exact scanPages_preserve (fun st => st.processed = sumCounts st.subs)
      (fun m st h => budget_processOne mb max_results m st h)
      (fun _ h => h) fuel none initState rfl
  · intro mb max_results m st h
    exact processOne_of_absent st h

/-- Witness for the amended C1 at a concrete skipped message. -/
theorem C1_amended_budget_counts_retained_witness :
    processOne mbAllSkipped 5 "m1" initState =
      ({ initState with examined := initState.examined + 1 }, false) :=
  C1_amended_budget_counts_retained.2 mbAllSkipped 5 "m1" initState (by decide)

/-! ## Claim C8: which messages contribute nothing -/

/-- Claim C8 counterexample: the claim makes the absence of the
`List-Unsubscribe` header the sole discovery filter, but a message whose
header is present with an empty value is also excluded: the scan examines
it and produces no Subscription. -/
theorem C8_counterexample :
    _get_header_value (mbEmptyHeader.getMetadata "m1") "List-Unsubscribe" = some "" ∧
    (scanFinal mbEmptyHeader 5 3).examined = 1 ∧
    list_subscriptions mbEmptyHeader 5 3 = [] := by
  decide

/-- Claim C8 amended: a message is excluded from aggregation — no record
created, none mutated, no budget consumed — exactly when its
`List-Unsubscribe` value is absent or the empty string; any other value
mutates the sender's record (its total contribution count grows by one). -/
theorem C8_skip_iff_absent_or_empty :
    ∀ (mb : Mailbox) (max_results : Nat) (m : String) (st : ScanState),
      ((_get_header_value (mb.getMetadata m) "List-Unsubscribe" = none ∨
        _get_header_value (mb.getMetadata m) "List-Unsubscribe" = some "") →
        (processOne mb max_results m st).1.subs = st.subs ∧
        (processOne mb max_results m st).1.processed = st.processed) ∧
      (∀ v, _get_header_value (mb.getMetadata m) "List-Unsubscribe" = some v → v ≠ "" →
        sumCounts (processOne mb max_results m st).1.subs = sumCounts st.subs + 1) := by
  intro mb max_results m st
  constructor
  · rintro (h | h)
    · rw [processOne_of_absent st h]
      exact ⟨rfl, rfl⟩
    · rw [processOne_of_empty st h]
      exact ⟨rfl, rfl⟩
  · intro v hv hne
    rw [processOne_of_retained st hv hne]
    exact sumCounts_retainMessage _ _ _ _

/-- Witness for the amended C8: the empty-value message of the fixture is
skipped; the retained message of the two-message fixture adds one
contribution. -/
theorem C8_skip_iff_absent_or_empty_witness :
    ((processOne mbEmptyHeader 5 "m1" initState).1.subs = initState.subs ∧
      (processOne mbEmptyHeader 5 "m1" initState).1.processed = initState.processed) ∧
    sumCounts (processOne mbSkipFirst 5 "m2" initState).1.subs = sumCounts initState.subs + 1 :=
  ⟨(C8_skip_iff_absent_or_empty mbEmptyHeader 5 "m1" initState).1 (Or.inr (by decide)),
   (C8_skip_iff_absent_or_empty mbSkipFirst 5 "m2" initState).2 "<https://x/u>" (by decide)
     (by decide)⟩

/-! ## Claim C9: an empty page stops the pagination -/

/-- Claim C9: in both `list_subscriptions` and `search_emails`, when the
requested page comes back with zero messages the loop stops at once —
the state is returned unchanged except for the page-request counter, so
no further page is requested — even though `processed < max_results`. -/
theorem C9_empty_page_stops :
    (∀ (mb : Mailbox) (max_results fuel : Nat) (tok : Option String) (st : ScanState),
      st.processed < max_results →
      (mb.listMessages (min 100 (max_results - st.processed)) tok).1 = [] →
      scanPages mb max_results (fuel + 1) tok st = { st with requests := st.requests + 1 }) ∧
    (∀ (mb : Mailbox) (max_results fuel : Nat) (tok : Option String) (st : SearchState),
      st.processed < max_results →
      (mb.listMessages (min 100 (max_results - st.processed)) tok).1 = [] →
      searchPages mb max_results (fuel + 1) tok st = { st with requests := st.requests + 1 }) := by
  constructor
  · intro mb max_results fuel tok st h1 h2
    rw [scanPages]
    dsimp only
    rw [if_pos h1, h2]
    rfl
  · intro mb max_results fuel tok st h1 h2
    rw [searchPages]
    dsimp only
    rw [if_pos h1, h2]
    rfl

/-- Witness for C9 on the always-empty fixture mailbox. -/
theorem C9_empty_page_stops_witness :
    scanPages mbEmptyPage 5 3 none initState =
      { initState with requests := initState.requests + 1 } ∧
    searchPages mbEmptyPage 5 3 none ⟨[], 0, 0, 0⟩ =
      { (⟨[], 0, 0, 0⟩ : SearchState) with requests := (⟨[], 0, 0, 0⟩ : SearchState).requests + 1 } :=
  ⟨C9_empty_page_stops.1 mbEmptyPage 5 2 none initState (by decide) rfl,
   C9_empty_page_stops.2 mbEmptyPage 5 2 none ⟨[], 0, 0, 0⟩ (by decide) rfl⟩

/-! ## Claim C5: semantics of the From-header regex -/

/-- `rest` matches `\s*<(.+?)>$` with group 2 exactly `g2`: a run of
whitespace, then `<`, then the non-empty newline-free group, then the
final `>`. -/
def ValidRest (rest g2 : List Char) : Prop :=
  g2 ≠ [] ∧ '\n' ∉ g2 ∧
    ∃ ws, ws.all isSpace = true ∧ rest = ws ++ '<' :: (g2 ++ ['>'])

/-- `cs` matches `^(.+?)\s*<(.+?)>$` with groups `g1`, `g2`, for some
(not necessarily least) choice of the group-1 split. -/
def ValidSplit (cs g1 g2 : List Char) : Prop :=
  g1 ≠ [] ∧ '\n' ∉ g1 ∧ ∃ rest, cs = g1 ++ rest ∧ ValidRest rest g2

theorem dropWhile_append_all {p : Char → Bool} {ws l : List Char}
    (hws : ws.all p = true) : (ws ++ l).dropWhile p = l.dropWhile p := by
  induction ws with
  | nil => rfl
  | cons w ws ih =>
    rw [List.all_cons, Bool.and_eq_true] at hws
    rw [List.cons_append, List.dropWhile_cons, if_pos hws.1]
    exact ih hws.2

theorem checkSplit_sound {g1 rest a b : List Char}
    (h : checkSplit g1 rest = some (a, b)) :
    a = g1 ∧ '\n' ∉ g1 ∧ ValidRest rest b := by
  unfold checkSplit at h
  split at h
  · exact absurd h (by simp)
  next hn =>
    have hn' : '\n' ∉ g1 := fun hmem => hn (List.elem_iff.mpr hmem)
    split at h
    next c tail heq =>
      split at h
      next hcond =>
        obtain ⟨⟨⟨hc, hlast⟩, hne⟩, hnl⟩ :
            (((c == '<') = true ∧ (tail.getLast? == some '>') = true) ∧
              (!tail.dropLast.isEmpty) = true) ∧
              (!tail.dropLast.contains '\n') = true := by
          simpa [Bool.and_eq_true] using hcond
        have hc' : c = '<' := by simpa using hc
        obtain ⟨rfl, rfl⟩ : a = g1 ∧ b = tail.dropLast := by
          constructor <;> injection h with h' <;> cases h' <;> rfl
        refine ⟨rfl, hn', ?_, ?_, rest.takeWhile isSpace, ?_, ?_⟩
        · simpa [List.isEmpty_iff] using hne
        · intro hmem
          have hmem' : tail.dropLast.contains '\n' = true := List.elem_iff.mpr hmem
          rw [hmem'] at hnl
          simp at hnl
        · exact List.all_eq_true.mpr fun x hx => List.mem_takeWhile_imp hx
        · have htail : tail.getLast? = some '>' := by simpa using hlast
          have htne : tail ≠ [] := by
            rintro rfl
            simp at htail
          have hlast' : tail.getLast htne = '>' := by
            rw [List.getLast?_eq_getLast tail htne] at htail
            injection htail
          have hsplit : tail.dropLast ++ ['>'] = tail := by
            rw [← hlast']
            exact List.dropLast_append_getLast htne
          rw [hsplit, ← hc', ← heq]
          exact (List.takeWhile_append_dropWhile isSpace rest).symm
      · exact absurd h (by simp)
    · exact absurd h (by simp)

theorem checkSplit_complete {g1 rest g2 : List Char}
    (hg1 : '\n' ∉ g1) (hr : ValidRest rest g2) :
    checkSplit g1 rest = some (g1, g2) := by
  obtain ⟨hne, hnl, ws, hws, rfl⟩ := hr
  unfold checkSplit
  rw [if_neg (by simpa [List.elem_iff] using hg1)]
  have hdrop : (ws ++ '<' :: (g2 ++ ['>'])).dropWhile isSpace = '<' :: (g2 ++ ['>']) := by
    rw [dropWhile_append_all hws, List.dropWhile_cons, if_neg (by simp [isSpace])]
  rw [hdrop]
  dsimp only
  have h1 : (g2 ++ ['>']).getLast? = some '>' := by simp
  have h2 : (g2 ++ ['>']).dropLast = g2 := by simp
  have h3 : (!g2.isEmpty) = true := by simpa [List.isEmpty_iff] using hne
  have h4 : g2.contains '\n' = false := by
    rw [← Bool.not_eq_true]
    intro hc
    exact hnl (List.elem_iff.mp hc)
  rw [h1, h2]
  simp [h3, h4, hnl]

theorem matchAux_sound {rest : List Char} :
    ∀ {g1 a b : List Char}, matchAux g1 rest = some (a, b) →
      ∃ m suffix, m ≠ [] ∧ rest = m ++ suffix ∧ a = g1 ++ m ∧
        checkSplit a suffix = some (a, b) := by
  induction rest with
  | nil =>
    intro g1 a b h
    simp [matchAux] at h
  | cons c rest ih =>
    intro g1 a b h
    rw [matchAux] at h
    cases hc : checkSplit (g1 ++ [c]) rest with
    | some r =>
      rw [hc] at h
      have hr : r = (a, b) := by injection h
      subst hr
      obtain ⟨ha, -, -⟩ := checkSplit_sound hc
      subst ha
      exact ⟨[c], rest, by simp, rfl, rfl, hc⟩
    | none =>
      rw [hc] at h
      obtain ⟨m, suffix, hm, rfl, ha, hcs⟩ := ih h
      exact ⟨c :: m, suffix, by simp, by simp,
        by simpa [List.append_assoc] using ha, hcs⟩

theorem matchAux_minimal {rest : List Char} :
    ∀ {g1 a b : List Char}, matchAux g1 rest = some (a, b) →
      ∀ m suffix g2, rest = m ++ suffix → m ≠ [] → '\n' ∉ g1 ++ m →
        ValidRest suffix g2 → a.length ≤ (g1 ++ m).length := by
  induction rest with
  | nil =>
    intro g1 a b h
    simp [matchAux] at h
  | cons c rest ih =>
    intro g1 a b h m suffix g2 hms hm hnl hvr
    cases m with
    | nil => exact absurd rfl hm
    | cons c' m' =>
      rw [List.cons_append] at hms
      injection hms with hc' hrest
      subst hc'
      rw [matchAux] at h
      cases hc : checkSplit (g1 ++ [c]) rest with
      | some r =>
        rw [hc] at h
        have hr : r = (a, b) := by injection h
        subst hr
        obtain ⟨ha, -, -⟩ := checkSplit_sound hc
        subst ha
        simp
      | none =>
        rw [hc] at h
        cases m' with
        | nil =>
          exfalso
          have hsuffix : rest = suffix := by simpa using hrest
          have hnl' : '\n' ∉ g1 ++ [c] := by simpa using hnl
          have hcmp := checkSplit_complete hnl' hvr
          rw [← hsuffix] at hcmp
          rw [hcmp] at hc
          exact absurd hc (by simp)
        | cons d m'' =>
          have hnl'' : '\n' ∉ (g1 ++ [c]) ++ d :: m'' := by
            simpa [List.append_assoc] using hnl
          have hle := ih h (d :: m'') suffix g2 hrest (by simp) hnl'' hvr
          simpa [List.append_assoc] using hle

theorem matchAux_complete {rest : List Char} :
    ∀ {g1 : List Char}, matchAux g1 rest = none →
      ∀ m suffix g2, rest = m ++ suffix → m ≠ [] → '\n' ∉ g1 ++ m →
        ¬ ValidRest suffix g2 := by
  induction rest with
  | nil =>
    intro g1 _ m suffix g2 hms hm _
    cases m with
    | nil => exact absurd rfl hm
    | cons c' m' => simp at hms
  | cons c rest ih =>
    intro g1 h m suffix g2 hms hm hnl
    rw [matchAux] at h
    cases hc : checkSplit (g1 ++ [c]) rest with
    | some r =>
      rw [hc] at h
      exact absurd h (by simp)
    | none =>
      rw [hc] at h
      cases m with
      | nil => exact absurd rfl hm
      | cons c' m' =>
        rw [List.cons_append] at hms
        injection hms with hc' hrest
        subst hc'
        cases m' with
        | nil =>
          intro hvr
          have hsuffix : rest = suffix := by simpa using hrest
          have hnl' : '\n' ∉ g1 ++ [c] := by simpa using hnl
          have hcmp := checkSplit_complete hnl' hvr
          rw [← hsuffix] at hcmp
          rw [hcmp] at hc
          exact absurd hc (by simp)
        | cons d m'' =>
          have hnl'' : '\n' ∉ (g1 ++ [c]) ++ d :: m'' := by
            simpa [List.append_assoc] using hnl
          exact ih h (d :: m'') suffix g2 hrest (by simp) hnl''

theorem pyMatchFrom_some_sound {s : String} {g1 g2 : String}
    (h : pyMatchFrom s = some (g1, g2)) :
    ValidSplit (normDollar s.data) g1.data g2.data ∧
      ∀ a b, ValidSplit (normDollar s.data) a b → g1.data.length ≤ a.length := by
  unfold pyMatchFrom at h
  cases hm : matchAux [] (normDollar s.data) with
  | none =>
    rw [hm] at h
    simp at h
  | some r =>
    rw [hm] at h
    obtain ⟨ra, rb⟩ := r
    simp only [Option.map_some'] at h
    have hr : (String.mk ra, String.mk rb) = (g1, g2) := by injection h
    have hfst : String.mk ra = g1 := congrArg Prod.fst hr
    have hsnd : String.mk rb = g2 := congrArg Prod.snd hr
    have hg1 : g1.data = ra := by rw [← hfst]
    have hg2 : g2.data = rb := by rw [← hsnd]
    obtain ⟨m, suffix, hm0, hrest, ha, hcs⟩ := matchAux_sound hm
    have ham : ra = m := by simpa using ha
    obtain ⟨-, hnl, hvr⟩ := checkSplit_sound hcs
    constructor
    · refine ⟨?_, ?_, suffix, ?_, ?_⟩
      · rw [hg1, ham]
        exact hm0
      · rw [hg1, ham]
        rw [ham] at hnl
        exact hnl
      · rw [hg1, ham]
        exact hrest
      · rw [hg2]
        exact hvr
    · intro a b hvs
      obtain ⟨hane, hanl, rest', hsplit, hvr'⟩ := hvs
      have hmin := matchAux_minimal hm a rest' b (by simpa using hsplit) hane
        (by simpa using hanl) hvr'
      rw [hg1]
      simpa using hmin

theorem pyMatchFrom_none_sound {s : String} (h : pyMatchFrom s = none) :
    ∀ a b, ¬ ValidSplit (normDollar s.data) a b := by
  unfold pyMatchFrom at h
  cases hm : matchAux [] (normDollar s.data) with
  | some r =>
    rw [hm] at h
    simp at h
  | none =>
    intro a b hvs
    obtain ⟨hane, hanl, rest', hsplit, hvr'⟩ := hvs
    exact matchAux_complete hm a rest' b (by simpa using hsplit) hane
      (by simpa using hanl) hvr'

theorem extract_of_match {headers : List Header} {g1 g2 : String}
    (h : pyMatchFrom (firstFromValue headers) = some (g1, g2)) :
    _extract_sender_info headers = (stripQuotes (pyStrip g1), pyStrip g2) := by
  unfold _extract_sender_info
  dsimp only
  rw [h]

theorem extract_of_none {headers : List Header}
    (h : pyMatchFrom (firstFromValue headers) = none) :
    _extract_sender_info headers =
      (pyStrip (firstFromValue headers), pyStrip (firstFromValue headers)) := by
  unfold _extract_sender_info
  dsimp only
  rw [h]

theorem firstFromValue_of_no_from {headers : List Header}
    (h : ∀ hd ∈ headers, pyLower hd.name ≠ "from") :
    firstFromValue headers = "" := by
  induction headers with
  | nil => rfl
  | cons hd rest ih =>
    rw [firstFromValue, if_neg (h hd (List.mem_cons_self _ _))]
    exact ih fun x hx => h x (List.mem_cons_of_mem _ hx)

/-- The greedy variant of the group-1 search, written from the claim's
words ("greedy display-name"): the longest group 1 admitting a match
wins, so deeper splits are preferred. -/
def matchAuxGreedy : List Char → List Char → Option (List Char × List Char)
  | _, [] => none
  | g1, c :: rest =>
    match matchAuxGreedy (g1 ++ [c]) rest with
    | some r => some r
    | none => checkSplit (g1 ++ [c]) rest

/-- Exactly one layer of surrounding double quotes, as the claim words the
name cleanup. -/
def stripOneQuoteLayer (s : String) : String :=
  if 2 ≤ s.data.length ∧ s.data.head? = some '"' ∧ s.data.getLast? = some '"' then
    ⟨(s.data.drop 1).dropLast⟩
  else s

/-- `extractSenderIdentity` as claim C5 states it — greedy display-name
capture and a single layer of quote stripping; modelled from the claim's
words for comparison against `_extract_sender_info`, whose regex group is
the lazy `(.+?)` and whose `strip('"')` removes every surrounding quote. -/
def claimC5_extract (headers : List Header) : String × String :=
  let from_header := firstFromValue headers
  match (matchAuxGreedy [] (normDollar from_header.data)).map
      (fun p => (String.mk p.1, String.mk p.2)) with
  | some (g1, g2) => (stripOneQuoteLayer (pyStrip g1), pyStrip g2)
  | none => (pyStrip from_header, pyStrip from_header)

/-- Claim C5 counterexample: on the From value `""B"" <x> <y>` the claim's
algorithm (greedy name, one quote layer) yields `(""B"" <x>, y)` while the
code's lazy group and strip-all-quotes yield `(B, x> <y)`: the display-name
capture is non-greedy and the quote stripping removes every layer. -/
theorem C5_counterexample :
    _extract_sender_info [⟨"From", "\"\"B\"\" <x> <y>"⟩] = ("B", "x> <y") ∧
    claimC5_extract [⟨"From", "\"\"B\"\" <x> <y>"⟩] = ("\"\"B\"\" <x>", "y") ∧
    _extract_sender_info [⟨"From", "\"\"B\"\" <x> <y>"⟩] ≠
      claimC5_extract [⟨"From", "\"\"B\"\" <x> <y>"⟩] := by
  decide

/-- Claim C5 amended: `_extract_sender_info` takes the first
case-insensitive From header; when the pattern
`^(.+?)\s*<(.+?)>$` matches, the display-name group is the SHORTEST
non-empty newline-free prefix followed by optional whitespace and the
angle-bracketed address group running to the final `>`, the name is
stripped of surrounding whitespace and of ALL surrounding double quotes,
and the address of surrounding whitespace; when no decomposition exists
the trimmed raw value is returned for both fields; with no From header
both fields are empty strings. -/
theorem C5_extract_sender_characterisation :
    ∀ headers : List Header,
      ((∀ hd ∈ headers, pyLower hd.name ≠ "from") →
        _extract_sender_info headers = ("", "")) ∧
      (∀ g1 g2 : String, pyMatchFrom (firstFromValue headers) = some (g1, g2) →
        _extract_sender_info headers = (stripQuotes (pyStrip g1), pyStrip g2) ∧
        ValidSplit (normDollar (firstFromValue headers).data) g1.data g2.data ∧
        ∀ a b, ValidSplit (normDollar (firstFromValue headers).data) a b →
          g1.data.length ≤ a.length) ∧
      (pyMatchFrom (firstFromValue headers) = none →
        _extract_sender_info headers =
          (pyStrip (firstFromValue headers), pyStrip (firstFromValue headers)) ∧
        ∀ a b, ¬ ValidSplit (normDollar (firstFromValue headers).data) a b) := by
  intro headers
  refine ⟨?_, ?_, ?_⟩
  · intro hnofrom
    have hf := firstFromValue_of_no_from hnofrom
    have hnone : pyMatchFrom (firstFromValue headers) = none := by
      rw [hf]
      rfl
    rw [extract_of_none hnone, hf]
    rfl
  · intro g1 g2 h
    obtain ⟨hvs, hmin⟩ := pyMatchFrom_some_sound h
    exact ⟨extract_of_match h, hvs, hmin⟩
  · intro h
    exact ⟨extract_of_none h, pyMatchFrom_none_sound h⟩

/-- Witness for the amended C5 on a concrete quoted From header. -/
theorem C5_extract_sender_characterisation_witness :
    _extract_sender_info [⟨"FROM", "\"Ann B\" <a@b.com>"⟩] =
      (stripQuotes (pyStrip "\"Ann B\""), pyStrip "a@b.com") :=
  (((C5_extract_sender_characterisation [⟨"FROM", "\"Ann B\" <a@b.com>"⟩]).2.1
    "\"Ann B\"" "a@b.com") (by decide)).1

/-! ## Model validation on concrete inputs

Each example below was checked against CPython's `re`, `str.strip`,
`str.lower` and `in` on the same inputs. -/

example : _extract_sender_info [⟨"From", "\"Acme, Inc.\" <news@acme.com>"⟩] =
    ("Acme, Inc.", "news@acme.com") := by decide

example : _extract_sender_info [⟨"From", "A <b> <c>"⟩] = ("A", "b> <c") := by decide

example : _extract_sender_info [⟨"From", "plainaddr@x.com"⟩] =
    ("plainaddr@x.com", "plainaddr@x.com") := by decide

example : _extract_sender_info [] = ("", "") := by decide

example : pyMatchFrom "<a>" = none := by decide

example : pyMatchFrom " x < y >" = some (" x", " y ") := by decide

example : pyMatchFrom "A \t\n <b>\n" = some ("A", "b") := by decide

example : pyMatchFrom "a\nb <c>" = none := by decide

example : _parse_unsubscribe_header "<https://a.com/u>, <mailto:u@a.com>, <ftp://x>" =
    (["https://a.com/u"], ["mailto:u@a.com"]) := by decide

example : findAngles "<> <a<b> x".data = ["a<b"] := by decide

example : findAngles "<<a>, <mailto:u@a.com> <ftp://x>".data =
    ["<a", "mailto:u@a.com", "ftp://x"] := by decide

example : (list_subscriptions mbSkipFirst 10 5).map Subscription.sender_email =
    ["b@x.com"] := by decide

example : (scanFinal mbSkipFirst 10 5).processed = 1 ∧
    (scanFinal mbSkipFirst 10 5).examined = 2 ∧
    (scanFinal mbSkipFirst 10 5).requests = 1 := by decide

example : (search_emails mbSkipFirst 10 5).map SearchResult.id = ["m1", "m2"] := by decide

example : unsubscribe_http (.success "You HAVE been UnsubscribeD!" "x") = true := by decide

example : unsubscribe_http (.success "Hello World" "Hello World") = false := by decide

end GmailUnsub
